import Mathlib

/-!
# SIEM dashboard: ingestion endpoint and derived views

A shallow embedding of

* `backend/server.js`: the `POST /api/logs` handler,
* `frontend/app/page.js`: the home dashboard (`Home`),
* `frontend/app/pages/logs/page.js`: the logs page,

followed by the properties established about them.
-/

namespace Siem

/-! ## Records as the dashboards read them -/

/-- A stored record as a dashboard receives it from `GET /api/logs` or from a
`new_log` event.  `anomaly_type` and `timestamp` are `none` when the field is
absent (or `null`); the remaining fields are never inspected by the code
modelled here and are carried as an opaque payload. -/
structure LogRec where
  id : Nat
  anomaly_type : Option String
  timestamp : Option String
  content : Option String
  deriving DecidableEq, Repr

/-- `Array.prototype.includes` on an array of strings, searched for a value
that is a string or `undefined`: `undefined` is never found. -/
def includes (xs : List String) (x : Option String) : Bool :=
  match x with
  | none => false
  | some s => xs.contains s

/-- `String.prototype.length`: the number of UTF-16 code units. -/
def jsLength (s : String) : Nat :=
  (s.toList.map fun c => if c.toNat < 65536 then 1 else 2).sum

/-- The host's `Date` facilities, which the repository does not define:
`parse s` is the time value of `new Date(s)` (`none` when it is `NaN`), `now`
the time value of `new Date()`, and the two renderers are
`toLocaleString` and `toLocaleDateString` on a valid date. -/
structure DateEnv where
  parse : String → Option Int
  now : Int
  toLocaleString : Int → String
  toLocaleDateString : Int → String

/-- `new Date(raw).toLocaleString()`: an invalid date renders as the text
`Invalid Date`. -/
def DateEnv.renderParsed (env : DateEnv) (raw : String) : String :=
  match env.parse raw with
  | some t => env.toLocaleString t
  | none => "Invalid Date"

/-! ## Number arithmetic

JavaScript numbers are binary64.  A finite value is carried exactly, as a
signed fraction; the other values are the two infinities and `NaN`.  Each
operation on finite values computes the exact result and rounds it to the
nearest binary64 (ties to even).  Exponent range is not limited: the quotients
formed by the dashboard lie between `2^-32` and `2^39`, far from overflow and
from the subnormal range.  Zero carries no sign: the numbers divided here are
array lengths and their differences, never `-0`. -/

namespace Dbl

/-- The integer nearest to `a / b`, ties to even (`b > 0`). -/
def roundHalfEven (a b : Nat) : Nat :=
  let n := a / b
  let r := a % b
  if 2 * r < b then n
  else if b < 2 * r then n + 1
  else if n % 2 = 0 then n else n + 1

/-- The exponent of the highest power of two not above `n`, found in at most
`fuel` halvings. -/
def log2Fuel : Nat → Nat → Nat
  | 0, _ => 0
  | fuel + 1, n => if n < 2 then 0 else log2Fuel fuel (n / 2) + 1

/-- The exponent of the highest power of two not above `n` (`n > 0`). -/
def log2 (n : Nat) : Nat := log2Fuel n n

/-- The fraction `p / q` multiplied by `2 ^ s`. -/
def scale (p q : Nat) (s : Int) : Nat × Nat :=
  if 0 ≤ s then (p * 2 ^ s.toNat, q) else (p, q * 2 ^ (-s).toNat)

/-- The binary64 value nearest to `p / q` (`q > 0`): the exponent `s` is chosen
so that `p / q * 2 ^ s` lies in `[2^52, 2^53)`, that number is rounded to an
integer significand, and the scaling is undone. -/
def nearest (p q : Nat) : Nat × Nat :=
  if p = 0 then (0, 1)
  else
    let s0 : Int := 52 - ((log2 p : Int) - (log2 q : Int))
    let ab0 := scale p q s0
    let s : Int := if 2 ^ 52 * ab0.2 ≤ ab0.1 then s0 else s0 + 1
    let ab := scale p q s
    scale (roundHalfEven ab.1 ab.2) 1 (-s)

end Dbl

/-- A binary64 value: a finite one, exactly `num / den` with `den > 0`; an
infinity with its sign; or `NaN`. -/
inductive Dbl where
  | finite (num : Int) (den : Nat)
  | infinity (negative : Bool)
  | nan
  deriving DecidableEq, Repr

namespace Dbl

/-- An integer below `2^53` is a binary64 value. -/
def ofInt (n : Int) : Dbl := .finite n 1

/-- Number division `x / y`: `0 / 0` and `∞ / ∞` are `NaN`, a non-zero value
over zero is an infinity, a finite value over an infinity is zero. -/
def div : Dbl → Dbl → Dbl
  | .nan, _ => .nan
  | _, .nan => .nan
  | .infinity _, .infinity _ => .nan
  | .infinity s, .finite n _ => .infinity (s != decide (n < 0))
  | .finite _ _, .infinity _ => .finite 0 1
  | .finite n1 d1, .finite n2 d2 =>
      if n2 = 0 then
        if n1 = 0 then .nan else .infinity (decide (n1 < 0))
      else
        let r := nearest (n1.natAbs * d2) (d1 * n2.natAbs)
        .finite (if (n1 < 0) = (n2 < 0) then (r.1 : Int) else -(r.1 : Int)) r.2

/-- Number multiplication `x * y`: zero times an infinity is `NaN`. -/
def mul : Dbl → Dbl → Dbl
  | .nan, _ => .nan
  | _, .nan => .nan
  | .infinity s, .infinity t => .infinity (s != t)
  | .infinity s, .finite n _ => if n = 0 then .nan else .infinity (s != decide (n < 0))
  | .finite n _, .infinity s => if n = 0 then .nan else .infinity (s != decide (n < 0))
  | .finite n1 d1, .finite n2 d2 =>
      let r := nearest (n1.natAbs * n2.natAbs) (d1 * d2)
      .finite (if (n1 < 0) = (n2 < 0) then (r.1 : Int) else -(r.1 : Int)) r.2

/-- `Number.prototype.toFixed(1)`.  A value that is not finite renders as
`NaN`, `Infinity` or `-Infinity`.  For a finite value below `10^21`, `n` is the
integer for which `n / 10` is closest to the magnitude, the larger one on a
tie; a negative value gets a leading minus sign. -/
def toFixed1 : Dbl → String
  | .nan => "NaN"
  | .infinity false => "Infinity"
  | .infinity true => "-Infinity"
  | .finite num den =>
      let n := (20 * num.natAbs + den) / (2 * den)
      (if num < 0 then "-" else "") ++ toString (n / 10) ++ "." ++ toString (n % 10)

end Dbl

/-! ## `frontend/app/page.js` -/

namespace HomePage

/-- `threatClassifications` of `page.js`, lines 30-37. -/
def threatClassifications : List String :=
  ["system_critical", "authentication_error", "file_error", "network_error",
   "permission_error", "memory error"]

/-- The test `threatClassifications.includes(log.anomaly_type)`. -/
def isThreat (log : LogRec) : Bool :=
  includes threatClassifications log.anomaly_type

/-- The two pieces of React state the counts are read from. -/
structure State where
  logs : List LogRec
  threats : List LogRec
  deriving DecidableEq, Repr

/-- `useState([])` twice. -/
def init : State := { logs := [], threats := [] }

/-- What can happen to the state: `fetchData` resolving with a snapshot,
`fetchData` failing (the `catch` branch only logs), and a `new_log` event. -/
inductive Event where
  | snapshot (logsData : List LogRec)
  | fetchFailed
  | newLog (data : LogRec)
  deriving DecidableEq, Repr

/-- One state transition (`page.js`, lines 44-47 and 58-61). -/
def step (s : State) : Event → State
  | .snapshot logsData =>
      { logs := logsData, threats := logsData.filter isThreat }
  | .fetchFailed => s
  | .newLog data =>
      { logs := data :: s.logs
        threats := if isThreat data then data :: s.threats else s.threats }

/-- The state after a sequence of events, starting from `init`. -/
def run (evs : List Event) : State := evs.foldl step init

/-- Line 83: `threats.length`. -/
def threatCount (s : State) : Int := s.threats.length

/-- Line 84: `logs.length - threatCount`. -/
def nonThreatCount (s : State) : Int := (s.logs.length : Int) - threatCount s

/-- Line 98: `logs.slice(0, 10).reverse()`. -/
def recentLogs (logs : List LogRec) : List LogRec := (logs.take 10).reverse

/-- The `Threats` dataset, lines 114-116. -/
def threatsData (recent : List LogRec) : List Nat :=
  recent.map fun log => if isThreat log then 1 else 0

/-- The callback of the `Cumulative Threats` dataset threaded through the
array: `cum` is the closed-over counter `cumulative`. -/
def cumulativeFrom (cum : Nat) : List LogRec → List Nat
  | [] => []
  | log :: rest =>
      let cum1 := if isThreat log then cum + 1 else cum
      cum1 :: cumulativeFrom cum1 rest

/-- The `Cumulative Threats` dataset, lines 99 and 123-126: the counter starts
at `0` on every render. -/
def cumulativeData (recent : List LogRec) : List Nat := cumulativeFrom 0 recent

/-- Lines 74-81: `formatTimestamp`.  `raw` is falsy when absent or empty. -/
def formatTimestamp (env : DateEnv) (raw : Option String) : String :=
  match raw with
  | none => "No timestamp"
  | some s =>
      if s = "" then "No timestamp"
      else if jsLength s < 10 then env.toLocaleDateString env.now ++ " " ++ s
      else env.renderParsed s

/-- The denominator `logs.length || 1` of lines 88-89. -/
def denominator (s : State) : Nat :=
  if s.logs.length = 0 then 1 else s.logs.length

/-- The expression `((count / (logs.length || 1)) * 100).toFixed(1)`. -/
def percent (count : Int) (s : State) : String :=
  Dbl.toFixed1 (Dbl.mul (Dbl.div (Dbl.ofInt count) (Dbl.ofInt (denominator s))) (Dbl.ofInt 100))

/-- Lines 87-90: `pieData.labels`. -/
def pieLabels (s : State) : List String :=
  ["Threats (" ++ percent (threatCount s) s ++ "%)",
   "Non-Threats (" ++ percent (nonThreatCount s) s ++ "%)"]

end HomePage

/-! ## `frontend/app/pages/logs/page.js` -/

namespace LogsPage

/-- `threatClassifications` of `pages/logs/page.js`, lines 16-23. -/
def threatClassifications : List String :=
  ["system_critical", "memory_error", "authentication_error", "filesystem_error",
   "network_error", "permission_error"]

/-- The test `threatClassifications.includes(log.anomaly_type)`. -/
def isThreat (log : LogRec) : Bool :=
  includes threatClassifications log.anomaly_type

/-- A plain object used as a counter table: its own string keys in insertion
order, each with its value. -/
abbrev Counts := List (String × Nat)

/-- Property read `acc[type]`: `none` is `undefined`. -/
def Counts.get (acc : Counts) (k : String) : Option Nat :=
  match acc with
  | [] => none
  | (k1, v) :: rest => if k1 = k then some v else Counts.get rest k

/-- Property write `acc[type] = v`: an existing key keeps its position, a new
key is added last. -/
def Counts.set (acc : Counts) (k : String) (v : Nat) : Counts :=
  match acc with
  | [] => [(k, v)]
  | (k1, v1) :: rest =>
      if k1 = k then (k1, v) :: rest else (k1, v1) :: Counts.set rest k v

/-- The statement `acc[type] = (acc[type] || 0) + 1`. -/
def Counts.bump (acc : Counts) (k : String) : Counts :=
  acc.set k ((match acc.get k with
    | none => 0
    | some v => if v = 0 then 0 else v) + 1)

/-- The reducer of lines 73-79. -/
def countStep (acc : Counts) (log : LogRec) : Counts :=
  match log.anomaly_type with
  | none => acc
  | some type => if threatClassifications.contains type then acc.bump type else acc

/-- Lines 73-79: `logs.reduce(..., {})`. -/
def threatCounts (logs : List LogRec) : Counts := logs.foldl countStep []

/-- The `setLogs` update of the `new_log` handler, line 51. -/
def onNewLog (prev : List LogRec) (log : LogRec) : List LogRec := log :: prev

/-- Lines 66-70: `formatTimestamp`.  The result is `none` when `ts` itself is
returned and is `undefined`. -/
def formatTimestamp (env : DateEnv) (ts : Option String) : Option String :=
  match ts with
  | none => none
  | some s =>
      if s = "" ∨ jsLength s ≤ 8 then some s
      else
        match env.parse s with
        | none => some s
        | some t => some (env.toLocaleString t)

end LogsPage

/-- The timestamp rule in the words of the specification: shorter than 10 gives
today's date, a space and the time; otherwise the parsed date-time, rendered;
the raw string if parsing fails. -/
def specFormatTimestamp (env : DateEnv) (ts : String) : String :=
  if jsLength ts < 10 then env.toLocaleDateString env.now ++ " " ++ ts
  else
    match env.parse ts with
    | some t => env.toLocaleString t
    | none => ts

/-- A fixed host used to evaluate the formatters: it parses one ISO date-time
and renders in the `en-US` style. -/
def sampleDateEnv : DateEnv where
  parse s := if s = "2024-01-02T03:04:05Z" then some 1704164645000 else none
  now := 1793836800000
  toLocaleString _ := "1/2/2024, 3:04:05 AM"
  toLocaleDateString _ := "11/4/2026"

/-- A threat record, used to evaluate the views. -/
def sampleRecord : LogRec :=
  { id := 11, anomaly_type := some "system_critical", timestamp := some "10:00:00",
    content := some "kernel panic" }

/-- Ten records, newest first, every other one a network error, used to
evaluate the views. -/
def sampleLogs : List LogRec :=
  (List.range 10).map fun i =>
    { id := 10 - i
      anomaly_type := if i % 2 = 0 then some "network_error" else none
      timestamp := some "10:00:00"
      content := none }

/-! ## `backend/server.js` -/

namespace Server

/-- A value produced by the JSON body parser.  A number is carried as the
exact value of the parsed literal; an object as its own properties, with
distinct keys. -/
inductive Json where
  | null
  | bool (b : Bool)
  | num (x : ℚ)
  | str (s : String)
  | arr (items : List Json)
  | obj (fields : List (String × Json))

/-- `ToBoolean` on a JSON value. -/
def Json.truthy : Json → Bool
  | .null => false
  | .bool b => b
  | .num x => x != 0
  | .str s => s != ""
  | .arr _ => true
  | .obj _ => true

/-- Property read `entry.k` on a value other than `null`; `none` is
`undefined`.  Only an object parsed from JSON has a property of one of the
names read by the handler. -/
def Json.field (k : String) : Json → Option Json
  | .obj fields => fields.lookup k
  | _ => none

/-- The object built for each entry at lines 78-86. -/
structure LogDoc where
  log : Option Json
  anomaly_type : Option Json
  severity : Option Json
  confidence : Option Json
  anomaly_score : Option Json
  processing_mode : Option Json
  timestamp : Json

/-- The callback of `logArray.map`, lines 78-86.  `hms` is the value of
`new Date().toISOString().slice(11, 19)` at that moment.  Reading a property of
`null` throws a `TypeError`, which is `none` here. -/
def normalize (hms : String) (entry : Json) : Option LogDoc :=
  match entry with
  | .null => none
  | _ =>
    some
      { log := entry.field "log"
        anomaly_type := entry.field "anomaly_type"
        severity := entry.field "severity"
        confidence := entry.field "confidence"
        anomaly_score := entry.field "anomaly_score"
        processing_mode := entry.field "processing_mode"
        timestamp :=
          match entry.field "timestamp" with
          | some t => if t.truthy then t else .str hms
          | none => .str hms }

/-- `logArray.map(...)` from entry number `i` on: `clock i` is the clock
reading available to entry `i`; the first entry that throws ends the map. -/
def normalizeFrom (clock : Nat → String) (i : Nat) : List Json → Option (List LogDoc)
  | [] => some []
  | entry :: rest =>
      match normalize (clock i) entry with
      | none => none
      | some doc =>
          match normalizeFrom clock (i + 1) rest with
          | none => none
          | some docs => some (doc :: docs)

/-- A document of the `logs` collection. -/
structure StoredLog where
  _id : Nat
  doc : LogDoc

/-- The `logs` collection in insertion order, and the next identifier. -/
structure Store where
  docs : List StoredLog
  nextId : Nat

/-- The persistence layer (Mongoose and MongoDB), which the repository uses but
does not define: whether a batch is accepted, and the schema cast applied to a
document when it is saved. -/
structure Db where
  accepts : List LogDoc → Bool
  cast : LogDoc → LogDoc

/-- The documents of a batch as saved, with consecutive identifiers. -/
def assignIds (db : Db) (next : Nat) : List LogDoc → List StoredLog
  | [] => []
  | d :: ds => { _id := next, doc := db.cast d } :: assignIds db (next + 1) ds

/-- The call `Log.insertMany(logsToInsert)`: an accepted batch is appended as a
whole and resolves to the saved documents in batch order; a refused batch
rejects (`none`) and leaves the collection as it was. -/
def insertMany (db : Db) (st : Store) (docs : List LogDoc) : Option (List StoredLog) × Store :=
  if db.accepts docs then
    let saved := assignIds db st.nextId docs
    (some saved, { docs := st.docs ++ saved, nextId := st.nextId + docs.length })
  else (none, st)

/-- What the handler does to the outside world, in order of occurrence. -/
inductive Effect where
  | dbInsert (docs : List LogDoc) (result : Option (List StoredLog))
  | emit (event : String) (payload : StoredLog)
  | consoleLog (line : String)
  | consoleError (line : String)
  | respond (status : Nat) (body : String)

/-- The outcome of one request: the effects in order, and the collection
afterwards. -/
structure Outcome where
  trace : List Effect
  store : Store

/-- The handler of `POST /api/logs`, lines 70-97.  `body` is `req.body`
(`none` when it is `undefined`). -/
def postLogs (db : Db) (clock : Nat → String) (st : Store) (body : Option Json) : Outcome :=
  match body with
  | some (.arr logArray) =>
      match normalizeFrom clock 0 logArray with
      | none =>
          { trace := [.consoleError "❌ Error saving logs:", .respond 500 "Failed to save logs"]
            store := st }
      | some logsToInsert =>
          match insertMany db st logsToInsert with
          | (none, st1) =>
              { trace := [.dbInsert logsToInsert none, .consoleError "❌ Error saving logs:",
                          .respond 500 "Failed to save logs"]
                store := st1 }
          | (some savedLogs, st1) =>
              { trace :=
                  .dbInsert logsToInsert (some savedLogs) ::
                    (savedLogs.map (Effect.emit "new_log") ++
                      [.consoleLog ("💾 Saved " ++ toString savedLogs.length ++ " logs"),
                       .respond 200 "Logs received and broadcasted"])
                store := st1 }
  | _ => { trace := [.respond 400 "❌ Request must be an array of logs"], store := st }

/-- The response sent: status and body. -/
def Outcome.response (o : Outcome) : Option (Nat × String) :=
  o.trace.findSome? fun
    | .respond status body => some (status, body)
    | _ => none

/-- The payloads of the `new_log` events emitted, in order. -/
def Outcome.emitted (o : Outcome) : List StoredLog :=
  o.trace.filterMap fun
    | .emit "new_log" payload => some payload
    | _ => none

/-- The batches handed to the store, in order. -/
def Outcome.insertAttempts (o : Outcome) : List (List LogDoc) :=
  o.trace.filterMap fun
    | .dbInsert docs _ => some docs
    | _ => none

/-- Whether the store append made by the request succeeded. -/
def appendSucceeds (db : Db) (clock : Nat → String) (logArray : List Json) : Prop :=
  ∃ docs, normalizeFrom clock 0 logArray = some docs ∧ db.accepts docs = true

/-- A store that accepts every batch and saves documents as they are. -/
def sampleDb : Db where
  accepts _ := true
  cast d := d

/-- A clock that reads ten o'clock throughout. -/
def sampleClock : Nat → String := fun _ => "10:00:00"

/-- The empty collection. -/
def emptyStore : Store := { docs := [], nextId := 0 }

/-- The entry `{anomaly_type: "system_critical", timestamp: "10:00:00"}`. -/
def sampleEntry : Json :=
  .obj [("anomaly_type", .str "system_critical"), ("timestamp", .str "10:00:00")]

/-- The entry `{anomaly_type: "network_error"}`, which has no timestamp. -/
def sampleEntry2 : Json :=
  .obj [("anomaly_type", .str "network_error")]

/-- A collection that already holds one document, saved under identifier 6. -/
def sampleStore : Store :=
  { docs :=
      [{ _id := 6
         doc :=
           { log := none, anomaly_type := none, severity := none, confidence := none,
             anomaly_score := none, processing_mode := none, timestamp := .str "09:00:00" } }]
    nextId := 7 }

end Server

/-! ## Threat classification -/

/-- C1, evaluated on the code: for the tag `memory_error` the home dashboard's
membership test answers "not a threat" while the logs page's test answers
"threat", so the two views do not implement one `isThreat`; the same happens
the other way round for `file_error`. -/
theorem taxonomy_verdicts_differ :
    includes HomePage.threatClassifications (some "memory_error") = false ∧
    includes LogsPage.threatClassifications (some "memory_error") = true ∧
    includes HomePage.threatClassifications (some "file_error") = true ∧
    includes LogsPage.threatClassifications (some "file_error") = false := by
  decide

/-! ## Home dashboard: counts -/

namespace HomePage

theorem step_preserves_filter (s : State) (e : Event)
    (h : s.threats = s.logs.filter isThreat) :
    (step s e).threats = (step s e).logs.filter isThreat := by
  cases e with
  | snapshot logsData => rfl
  | fetchFailed => exact h
  | newLog data =>
    by_cases hd : isThreat data = true
    · simp [step, hd, h]
    · simp [step, hd, h]

theorem foldl_preserves_filter (evs : List Event) :
    ∀ s : State, s.threats = s.logs.filter isThreat →
      (evs.foldl step s).threats = (evs.foldl step s).logs.filter isThreat := by
  induction evs with
  | nil => intro s h; exact h
  | cons e rest ih => intro s h; exact ih (step s e) (step_preserves_filter s e h)

theorem run_threats (evs : List Event) :
    (run evs).threats = (run evs).logs.filter isThreat :=
  foldl_preserves_filter evs init rfl

theorem length_eq_countP_add (p : LogRec → Bool) (l : List LogRec) :
    l.length = l.countP p + l.countP (fun x => !p x) := by
  induction l with
  | nil => rfl
  | cons a t ih =>
    cases hp : p a <;> simp [List.countP_cons, hp] <;> omega

/-- C6: after any sequence of snapshot loads, failed fetches and `new_log`
events from the initial empty state, `threats` is `logs` filtered by the
taxonomy test in the same order; `threatCount` is the number of threat records
in `logs`; `nonThreatCount` is non-negative and is the number of non-threat
records; and a further `new_log` event raises `threatCount` by one exactly when
its record is a threat, leaving it unchanged otherwise. -/
theorem home_counts_invariant (evs : List Event) :
    (run evs).threats = (run evs).logs.filter isThreat ∧
    threatCount (run evs) = ((run evs).logs.countP isThreat : Nat) ∧
    0 ≤ nonThreatCount (run evs) ∧
    nonThreatCount (run evs) = ((run evs).logs.countP (fun l => !isThreat l) : Nat) ∧
    ∀ data : LogRec,
      step (run evs) (.newLog data) = run (evs ++ [.newLog data]) ∧
      threatCount (step (run evs) (.newLog data)) =
        threatCount (run evs) + (if isThreat data then 1 else 0) := by
  have hT := run_threats evs
  have hc : threatCount (run evs) = ((run evs).logs.countP isThreat : Nat) := by
    simp [threatCount, hT, List.countP_eq_length_filter]
  have hlen := length_eq_countP_add isThreat (run evs).logs
  have hn : nonThreatCount (run evs) = ((run evs).logs.countP (fun l => !isThreat l) : Nat) := by
    unfold nonThreatCount
    rw [hc]
    omega
  refine ⟨hT, hc, ?_, hn, ?_⟩
  · rw [hn]; exact Int.natCast_nonneg _
  · intro data
    refine ⟨by simp [run, List.foldl_append], ?_⟩
    by_cases hd : isThreat data = true
    · simp [step, threatCount, hd]
    · simp [step, threatCount, hd]

/-! ## Home dashboard: recent window -/

/-- C8: `recentLogs` is the reverse of the first ten records of `logs`; its
length is `min 10 total`, never above ten; its `i`-th record is record
`length - 1 - i` of `logs`, so with `logs` newest-first it runs oldest to
newest; and when the window holds ten records, a `new_log` event yields the old
window without its first record and with the new record appended last. -/
theorem recent_window (logs : List LogRec) :
    recentLogs logs = (logs.take 10).reverse ∧
    (recentLogs logs).length = min 10 logs.length ∧
    (recentLogs logs).length ≤ 10 ∧
    (∀ i, i < (recentLogs logs).length →
      (recentLogs logs)[i]? = logs[(recentLogs logs).length - 1 - i]?) ∧
    ∀ data : LogRec, (recentLogs logs).length = 10 →
      recentLogs (data :: logs) = (recentLogs logs).tail ++ [data] := by
  have hlen : (recentLogs logs).length = min 10 logs.length := by
    simp [recentLogs, List.length_take]
  refine ⟨rfl, hlen, by omega, ?_, ?_⟩
  · intro i hi
    have h1 : i < (logs.take 10).length := by simpa [recentLogs] using hi
    have h2 : (recentLogs logs).length = (logs.take 10).length := by simp [recentLogs]
    rw [h2]
    unfold recentLogs
    rw [List.getElem?_reverse h1, List.getElem?_take]
    have : (logs.take 10).length ≤ 10 := by simp [List.length_take]
    simp
    omega
  · intro data h10
    have hl : 10 ≤ logs.length := by omega
    have h9 : logs.take 10 = logs.take 9 ++ [logs[9]] := by
      rw [List.take_succ, List.getElem?_eq_getElem (by omega)]
      rfl
    unfold recentLogs
    rw [h9]
    simp only [List.take_succ_cons, List.reverse_cons, List.reverse_append,
      List.reverse_singleton, List.singleton_append, List.tail_cons, List.reverse_nil,
      List.nil_append]

/-- C8 at ten records: the window is full, and an eleventh record pushes the
oldest one out. -/
theorem recent_window_witness :
    (recentLogs sampleLogs).length = 10 ∧
    (recentLogs sampleLogs)[0]? = sampleLogs[9]? ∧
    recentLogs (sampleRecord :: sampleLogs) = (recentLogs sampleLogs).tail ++ [sampleRecord] :=
  ⟨by decide, (recent_window sampleLogs).2.2.2.1 0 (by decide),
    (recent_window sampleLogs).2.2.2.2 sampleRecord (by decide)⟩

/-! ## Home dashboard: cumulative series -/

theorem length_cumulativeFrom (recent : List LogRec) :
    ∀ cum, (cumulativeFrom cum recent).length = recent.length := by
  induction recent with
  | nil => intro cum; rfl
  | cons a t ih => intro cum; simp [cumulativeFrom, ih]

theorem getElem?_cumulativeFrom (recent : List LogRec) :
    ∀ cum i, i < recent.length →
      (cumulativeFrom cum recent)[i]? = some (cum + (recent.take (i + 1)).countP isThreat) := by
  induction recent with
  | nil => intro cum i hi; simp at hi
  | cons a t ih =>
    intro cum i hi
    cases i with
    | zero =>
      cases ha : isThreat a <;> simp [cumulativeFrom, ha, List.countP_cons]
    | succ j =>
      have hj : j < t.length := by simpa using hi
      cases ha : isThreat a
      · simp [cumulativeFrom, ha, List.countP_cons, ih _ j hj]
      · simp [cumulativeFrom, ha, List.countP_cons, ih _ j hj]; omega

theorem le_of_mem_cumulativeFrom (recent : List LogRec) :
    ∀ cum x, x ∈ cumulativeFrom cum recent → cum ≤ x := by
  induction recent with
  | nil => intro cum x hx; simp [cumulativeFrom] at hx
  | cons a t ih =>
    intro cum x hx
    simp only [cumulativeFrom, List.mem_cons] at hx
    rcases hx with rfl | hx
    · split <;> omega
    · have := ih _ x hx
      split at this <;> omega

theorem pairwise_cumulativeFrom (recent : List LogRec) :
    ∀ cum, (cumulativeFrom cum recent).Pairwise (· ≤ ·) := by
  induction recent with
  | nil => intro cum; simp [cumulativeFrom]
  | cons a t ih =>
    intro cum
    simp only [cumulativeFrom, List.pairwise_cons]
    exact ⟨fun x hx => le_of_mem_cumulativeFrom t _ x hx, ih _⟩

theorem sum_threatsData (recent : List LogRec) :
    (threatsData recent).sum = recent.countP isThreat := by
  induction recent with
  | nil => rfl
  | cons a t ih =>
    have ih1 : (List.map (fun log => if isThreat log = true then 1 else 0) t).sum =
        t.countP isThreat := ih
    cases ha : isThreat a
    · simp [threatsData, List.countP_cons, ha, ih1]
    · simp [threatsData, List.countP_cons, ha, ih1]; omega

theorem countP_take_succ_le (l : List LogRec) (i : Nat) :
    (l.take i).countP isThreat ≤ (l.take (i + 1)).countP isThreat ∧
    (l.take (i + 1)).countP isThreat ≤ (l.take i).countP isThreat + 1 := by
  rw [List.take_succ, List.countP_append]
  cases h : l[i]? with
  | none => simp
  | some x => cases hx : isThreat x <;> simp [List.countP_cons, hx]

/-- C9: for the window `recentLogs logs`, the `Cumulative Threats` data has the
length of the window; its `i`-th entry is the number of threat records among
the first `i + 1` records of the window; it is non-decreasing, consecutive
entries differing by at most one; and for a non-empty window its last entry is
the sum of the 0/1 `Threats` data. -/
theorem cumulative_series (logs : List LogRec) :
    (cumulativeData (recentLogs logs)).length = (recentLogs logs).length ∧
    (∀ i, i < (recentLogs logs).length →
      (cumulativeData (recentLogs logs))[i]? =
        some (((recentLogs logs).take (i + 1)).countP isThreat)) ∧
    (cumulativeData (recentLogs logs)).Pairwise (· ≤ ·) ∧
    (∀ i a b, (cumulativeData (recentLogs logs))[i]? = some a →
      (cumulativeData (recentLogs logs))[i + 1]? = some b → a ≤ b ∧ b ≤ a + 1) ∧
    (recentLogs logs ≠ [] →
      (cumulativeData (recentLogs logs)).getLast? = some (threatsData (recentLogs logs)).sum) := by
  generalize recentLogs logs = w
  have hlen : (cumulativeData w).length = w.length := length_cumulativeFrom w 0
  have hidx : ∀ i, i < w.length →
      (cumulativeData w)[i]? = some ((w.take (i + 1)).countP isThreat) := by
    intro i hi
    have := getElem?_cumulativeFrom w 0 i hi
    simpa [cumulativeData] using this
  refine ⟨hlen, hidx, pairwise_cumulativeFrom w 0, ?_, ?_⟩
  · intro i a b ha hb
    have hi1 : i + 1 < w.length := by
      have := (List.getElem?_eq_some_iff.mp hb).1
      omega
    rw [hidx i (by omega)] at ha
    rw [hidx (i + 1) hi1] at hb
    cases ha
    cases hb
    exact countP_take_succ_le w (i + 1)
  · intro hne
    have hpos : 0 < w.length := List.length_pos.mpr hne
    rw [List.getLast?_eq_getElem?, hlen, hidx (w.length - 1) (by omega), sum_threatsData]
    have : w.length - 1 + 1 = w.length := by omega
    rw [this, List.take_length]

/-- C9 at a window of ten records, five of them threats. -/
theorem cumulative_series_witness :
    recentLogs sampleLogs ≠ [] ∧
    (cumulativeData (recentLogs sampleLogs))[3]? = some 2 ∧
    (cumulativeData (recentLogs sampleLogs)).getLast? = some 5 :=
  ⟨by decide, (cumulative_series sampleLogs).2.1 3 (by decide),
    (cumulative_series sampleLogs).2.2.2.2 (by decide)⟩

end HomePage

namespace LogsPage

/-! ## Logs page: per-type histogram -/

theorem get_set (acc : Counts) (k : String) (v : Nat) (k' : String) :
    (acc.set k v).get k' = if k = k' then some v else acc.get k' := by
  induction acc with
  | nil => simp [Counts.set, Counts.get]
  | cons e rest ih =>
    obtain ⟨k1, v1⟩ := e
    by_cases h1 : k1 = k
    · subst h1
      by_cases h2 : k1 = k' <;> simp [Counts.set, Counts.get, h2]
    · by_cases h2 : k1 = k'
      · subst h2
        have : ¬ k = k1 := fun h => h1 h.symm
        simp [Counts.set, Counts.get, h1, this]
      · simp [Counts.set, Counts.get, h1, h2, ih]

theorem bump_value (acc : Counts) (k : String) :
    (match acc.get k with
      | none => 0
      | some v => if v = 0 then 0 else v) = (acc.get k).getD 0 := by
  cases acc.get k with
  | none => rfl
  | some v => by_cases hv : v = 0 <;> simp [hv]

theorem get_bump (acc : Counts) (k k' : String) :
    (acc.bump k).get k' = if k = k' then some ((acc.get k).getD 0 + 1) else acc.get k' := by
  unfold Counts.bump
  rw [get_set, bump_value]

theorem keys_set (acc : Counts) (k : String) (v : Nat) :
    (acc.set k v).map Prod.fst =
      if k ∈ acc.map Prod.fst then acc.map Prod.fst else acc.map Prod.fst ++ [k] := by
  induction acc with
  | nil => simp [Counts.set]
  | cons e rest ih =>
    obtain ⟨k1, v1⟩ := e
    by_cases h1 : k1 = k
    · subst h1; simp [Counts.set]
    · have h1' : ¬ k = k1 := fun h => h1 h.symm
      simp only [Counts.set, h1, if_false, List.map_cons, ih, List.mem_cons, h1', false_or]
      split <;> simp

theorem nodup_keys_set (acc : Counts) (k : String) (v : Nat)
    (h : (acc.map Prod.fst).Nodup) : ((acc.set k v).map Prod.fst).Nodup := by
  rw [keys_set]
  split
  · exact h
  · rename_i hk
    rw [List.nodup_append]
    refine ⟨h, by simp, ?_⟩
    intro a ha hb
    simp at hb
    subst hb
    exact hk ha

theorem sum_set (acc : Counts) (k : String) (v : Nat) :
    ((acc.set k v).map Prod.snd).sum + (acc.get k).getD 0 = (acc.map Prod.snd).sum + v := by
  induction acc with
  | nil => simp [Counts.set, Counts.get]
  | cons e rest ih =>
    obtain ⟨k1, v1⟩ := e
    by_cases h1 : k1 = k
    · simp [Counts.set, Counts.get, h1]; omega
    · simp [Counts.set, Counts.get, h1]; omega

theorem sum_bump (acc : Counts) (k : String) :
    ((acc.bump k).map Prod.snd).sum = (acc.map Prod.snd).sum + 1 := by
  have := sum_set acc k ((acc.get k).getD 0 + 1)
  unfold Counts.bump
  rw [bump_value]
  omega

theorem get_eq_none_of_not_mem (acc : Counts) (k : String) (h : k ∉ acc.map Prod.fst) :
    acc.get k = none := by
  induction acc with
  | nil => rfl
  | cons e rest ih =>
    obtain ⟨k1, v1⟩ := e
    simp only [List.map_cons, List.mem_cons, not_or] at h
    have h1 : ¬ k1 = k := fun hh => h.1 hh.symm
    simp [Counts.get, h1, ih h.2]

theorem mem_keys_get (acc : Counts) (k : String) (h : k ∈ acc.map Prod.fst) :
    ∃ v, acc.get k = some v := by
  induction acc with
  | nil => simp at h
  | cons e rest ih =>
    obtain ⟨k1, v1⟩ := e
    by_cases h1 : k1 = k
    · exact ⟨v1, by simp [Counts.get, h1]⟩
    · have : k ∈ rest.map Prod.fst := by
        simp only [List.map_cons, List.mem_cons] at h
        rcases h with h | h
        · exact absurd h.symm h1
        · exact h
      obtain ⟨v, hv⟩ := ih this
      exact ⟨v, by simp [Counts.get, h1, hv]⟩

theorem isThreat_iff (log : LogRec) :
    isThreat log = true ↔ ∃ k, log.anomaly_type = some k ∧ k ∈ threatClassifications := by
  unfold isThreat includes
  cases log.anomaly_type with
  | none => simp
  | some s => simp

theorem countStep_of_threat (acc : Counts) (log : LogRec) (k : String)
    (hk : log.anomaly_type = some k) (hT : isThreat log = true) :
    countStep acc log = acc.bump k := by
  have hm : k ∈ threatClassifications := by
    simpa [isThreat, includes, hk] using hT
  simp [countStep, hk, hm]

theorem countStep_of_not_threat (acc : Counts) (log : LogRec) (hT : isThreat log = false) :
    countStep acc log = acc := by
  unfold countStep
  cases hk : log.anomaly_type with
  | none => rfl
  | some k =>
    have hm : k ∉ threatClassifications := by
      simpa [isThreat, includes, hk] using hT
    simp [hm]

theorem get_foldl_countStep (logs : List LogRec) (k : String) :
    ∀ acc : Counts,
      (logs.foldl countStep acc).get k =
        if k ∈ threatClassifications ∧ 0 < logs.countP (fun l => l.anomaly_type = some k) then
          some ((acc.get k).getD 0 + logs.countP (fun l => l.anomaly_type = some k))
        else acc.get k := by
  induction logs with
  | nil => intro acc; simp
  | cons a t ih =>
    intro acc
    rw [List.foldl_cons, ih]
    cases hT : isThreat a
    · rw [countStep_of_not_threat acc a hT]
      by_cases hk : a.anomaly_type = some k
      · have hnot : k ∉ threatClassifications := by
          intro hmem
          have := (isThreat_iff a).mpr ⟨k, hk, hmem⟩
          simp [hT] at this
        simp [hnot]
      · simp [List.countP_cons, hk]
    · obtain ⟨k1, hk1, hmem1⟩ := (isThreat_iff a).mp hT
      rw [countStep_of_threat acc a k1 hk1 hT, get_bump]
      by_cases hkk : k1 = k
      · subst hkk
        simp [List.countP_cons, hk1, hmem1]
        by_cases hz : List.countP (fun l => decide (l.anomaly_type = some k1)) t = 0
        · simp [hz]
        · have : 0 < List.countP (fun l => decide (l.anomaly_type = some k1)) t := by omega
          have hex : ∃ a ∈ t, a.anomaly_type = some k1 := by simpa using this
          rw [if_pos hex]
          congr 1
          omega
      · have hne : ¬ a.anomaly_type = some k := by
          rw [hk1]; intro h; exact hkk (Option.some.inj h)
        simp [List.countP_cons, hne, hkk]

theorem nodup_keys_foldl_countStep (logs : List LogRec) :
    ∀ acc : Counts, (acc.map Prod.fst).Nodup →
      ((logs.foldl countStep acc).map Prod.fst).Nodup := by
  induction logs with
  | nil => intro acc h; exact h
  | cons a t ih =>
    intro acc h
    rw [List.foldl_cons]
    apply ih
    cases hT : isThreat a
    · rw [countStep_of_not_threat acc a hT]; exact h
    · obtain ⟨k1, hk1, _⟩ := (isThreat_iff a).mp hT
      rw [countStep_of_threat acc a k1 hk1 hT]
      exact nodup_keys_set acc k1 _ h

theorem sum_foldl_countStep (logs : List LogRec) :
    ∀ acc : Counts,
      ((logs.foldl countStep acc).map Prod.snd).sum =
        (acc.map Prod.snd).sum + logs.countP isThreat := by
  induction logs with
  | nil => intro acc; simp
  | cons a t ih =>
    intro acc
    rw [List.foldl_cons, ih]
    cases hT : isThreat a
    · rw [countStep_of_not_threat acc a hT]; simp [List.countP_cons, hT]
    · obtain ⟨k1, hk1, _⟩ := (isThreat_iff a).mp hT
      rw [countStep_of_threat acc a k1 hk1 hT, sum_bump]
      simp [List.countP_cons, hT]; omega

/-- C10: `threatCounts logs` has distinct keys; the value under `k` is the
number of records of `logs` with `anomaly_type` `k` when `k` is in the taxonomy
and that number is positive, and `k` is not a key otherwise; the values sum to
the number of threat records.  For a new record `r` placed in front: if `r` is
not a threat the table is the same; if `r` is a threat of type `k`, every key
reads as in the old table after `acc[k] = (acc[k] || 0) + 1`, that is, `k`
reads one more than before (1 when it was no key) and every other key reads as
before. -/
theorem threatCounts_histogram (logs : List LogRec) :
    ((threatCounts logs).map Prod.fst).Nodup ∧
    (∀ k, (threatCounts logs).get k =
      if k ∈ threatClassifications ∧ 0 < logs.countP (fun l => l.anomaly_type = some k) then
        some (logs.countP (fun l => l.anomaly_type = some k))
      else none) ∧
    (∀ k, k ∈ (threatCounts logs).map Prod.fst ↔ (threatCounts logs).get k ≠ none) ∧
    ((threatCounts logs).map Prod.snd).sum = logs.countP isThreat ∧
    ∀ r : LogRec,
      (isThreat r = false → threatCounts (onNewLog logs r) = threatCounts logs) ∧
      (isThreat r = true → ∀ k, r.anomaly_type = some k → ∀ k',
        (threatCounts (onNewLog logs r)).get k' = ((threatCounts logs).bump k).get k' ∧
        (threatCounts (onNewLog logs r)).get k' =
          if k = k' then some (((threatCounts logs).get k).getD 0 + 1)
          else (threatCounts logs).get k') := by
  have hget : ∀ k, (threatCounts logs).get k =
      if k ∈ threatClassifications ∧ 0 < logs.countP (fun l => l.anomaly_type = some k) then
        some (logs.countP (fun l => l.anomaly_type = some k))
      else none := by
    intro k
    have := get_foldl_countStep logs k []
    simpa [threatCounts, Counts.get] using this
  have hnodup : ((threatCounts logs).map Prod.fst).Nodup :=
    nodup_keys_foldl_countStep logs [] (by simp)
  refine ⟨hnodup, hget, ?_, ?_, ?_⟩
  · intro k
    constructor
    · intro hk
      obtain ⟨v, hv⟩ := mem_keys_get (threatCounts logs) k hk
      simp [hv]
    · intro hk
      by_contra hnot
      exact hk (get_eq_none_of_not_mem _ k hnot)
  · have := sum_foldl_countStep logs []
    simpa [threatCounts] using this
  · intro r
    constructor
    · intro hr
      simp [threatCounts, onNewLog, List.foldl_cons, countStep_of_not_threat [] r hr]
    · intro hr k hk k'
      have hb : (threatCounts (onNewLog logs r)).get k' =
          if k = k' then some (((threatCounts logs).get k).getD 0 + 1)
          else (threatCounts logs).get k' := by
        have hfold : threatCounts (onNewLog logs r) = logs.foldl countStep (Counts.bump [] k) := by
          simp [threatCounts, onNewLog, List.foldl_cons, countStep_of_threat [] r k hk hr]
        obtain ⟨k1, hk1, hmem⟩ := (isThreat_iff r).mp hr
        have hkk1 : k1 = k := Option.some.inj (hk1.symm.trans hk)
        subst hkk1
        rw [hfold, get_foldl_countStep, get_bump, hget k1, hget k']
        by_cases hkk : k1 = k'
        · subst hkk
          by_cases hc : 0 < logs.countP (fun l => l.anomaly_type = some k1)
          · simp only [hmem, hc, and_self, if_true, Counts.get, Option.getD_some, Option.getD_none]
            congr 1
            omega
          · simp only [hmem, hc, and_false, if_false, if_true, Counts.get, Option.getD_none]
        · simp [hkk, Counts.get]
      exact ⟨by rw [hb, get_bump], hb⟩

/-- C10 at ten records: a threat of a type not yet counted is placed in front,
and the key of another type reads as in the old table after the bump. -/
theorem threatCounts_histogram_witness :
    isThreat sampleRecord = true ∧
    (threatCounts (onNewLog sampleLogs sampleRecord)).get "network_error" =
      ((threatCounts sampleLogs).bump "system_critical").get "network_error" :=
  ⟨by decide,
    (((threatCounts_histogram sampleLogs).2.2.2.2 sampleRecord).2 (by decide)
      "system_critical" rfl "network_error").1⟩

end LogsPage

/-! ## Timestamp formatting -/

/-- C2 as stated fails: on the logs page a bare `HH:MM:SS` timestamp is
returned as it is, without today's date in front, and a nine-character
timestamp is parsed instead of being prefixed. -/
theorem formatTimestamp_not_spec_rule :
    LogsPage.formatTimestamp sampleDateEnv (some "10:00:00") = some "10:00:00" ∧
    specFormatTimestamp sampleDateEnv "10:00:00" = "11/4/2026 10:00:00" ∧
    LogsPage.formatTimestamp sampleDateEnv (some "10:00:00") ≠
      some (specFormatTimestamp sampleDateEnv "10:00:00") ∧
    LogsPage.formatTimestamp sampleDateEnv (some "10:00:00Z") ≠
      some (specFormatTimestamp sampleDateEnv "10:00:00Z") := by
  decide

/-- C2, amended.  Home page: an absent or empty timestamp renders as
`No timestamp`; a non-empty one shorter than 10 renders as today's locale date,
a space and the timestamp; one of length 10 or more that parses renders as the
locale date-time string.  Logs page: an absent timestamp stays absent; one of
length 8 or less is returned unchanged; a longer one renders as the locale
date-time string when it parses and is returned unchanged when it does not.
Where the timestamp is at least 10 long (logs page), or is non-empty and either
shorter than 10 or parses (home page), this is the rule of the specification. -/
theorem formatTimestamp_rule (env : DateEnv) (ts : String) :
    HomePage.formatTimestamp env none = "No timestamp" ∧
    (ts = "" → HomePage.formatTimestamp env (some ts) = "No timestamp") ∧
    (ts ≠ "" → jsLength ts < 10 →
      HomePage.formatTimestamp env (some ts) = env.toLocaleDateString env.now ++ " " ++ ts) ∧
    (∀ t, 10 ≤ jsLength ts → env.parse ts = some t →
      HomePage.formatTimestamp env (some ts) = env.toLocaleString t) ∧
    LogsPage.formatTimestamp env none = none ∧
    (jsLength ts ≤ 8 → LogsPage.formatTimestamp env (some ts) = some ts) ∧
    (∀ t, 8 < jsLength ts → env.parse ts = some t →
      LogsPage.formatTimestamp env (some ts) = some (env.toLocaleString t)) ∧
    (8 < jsLength ts → env.parse ts = none →
      LogsPage.formatTimestamp env (some ts) = some ts) ∧
    (10 ≤ jsLength ts →
      LogsPage.formatTimestamp env (some ts) = some (specFormatTimestamp env ts)) ∧
    (ts ≠ "" → (jsLength ts < 10 ∨ env.parse ts ≠ none) →
      HomePage.formatTimestamp env (some ts) = specFormatTimestamp env ts) := by
  have hempty : jsLength "" = 0 := by decide
  have hne : 8 < jsLength ts → ts ≠ "" := by
    intro h he
    rw [he, hempty] at h
    omega
  refine ⟨rfl, ?_, ?_, ?_, rfl, ?_, ?_, ?_, ?_, ?_⟩
  · intro h
    simp [HomePage.formatTimestamp, h]
  · intro h1 h2
    simp [HomePage.formatTimestamp, h1, h2]
  · intro t h1 h2
    have h3 : ts ≠ "" := hne (by omega)
    have h4 : ¬ jsLength ts < 10 := by omega
    simp [HomePage.formatTimestamp, h3, h4, DateEnv.renderParsed, h2]
  · intro h
    simp [LogsPage.formatTimestamp, h]
  · intro t h1 h2
    have h3 : ts ≠ "" := hne h1
    have h4 : ¬ jsLength ts ≤ 8 := by omega
    simp [LogsPage.formatTimestamp, h3, h4, h2]
  · intro h1 h2
    have h3 : ts ≠ "" := hne h1
    have h4 : ¬ jsLength ts ≤ 8 := by omega
    simp [LogsPage.formatTimestamp, h3, h4, h2]
  · intro h1
    have h3 : ts ≠ "" := hne (by omega)
    have h4 : ¬ jsLength ts ≤ 8 := by omega
    have h5 : ¬ jsLength ts < 10 := by omega
    cases hp : env.parse ts <;>
      simp [LogsPage.formatTimestamp, specFormatTimestamp, h3, h4, h5, hp]
  · intro h1 h2
    by_cases h5 : jsLength ts < 10
    · simp [HomePage.formatTimestamp, specFormatTimestamp, h1, h5]
    · have hp : env.parse ts ≠ none := by
        rcases h2 with h2 | h2
        · exact absurd h2 h5
        · exact h2
      obtain ⟨t, ht⟩ := Option.ne_none_iff_exists'.mp hp
      simp [HomePage.formatTimestamp, specFormatTimestamp, h1, h5, DateEnv.renderParsed, ht]

/-- C2, amended, at a bare time of day and at a full date-time. -/
theorem formatTimestamp_rule_witness :
    HomePage.formatTimestamp sampleDateEnv (some "10:00:00") = "11/4/2026 10:00:00" ∧
    LogsPage.formatTimestamp sampleDateEnv (some "10:00:00") = some "10:00:00" ∧
    LogsPage.formatTimestamp sampleDateEnv (some "2024-01-02T03:04:05Z") =
      some "1/2/2024, 3:04:05 AM" ∧
    LogsPage.formatTimestamp sampleDateEnv (some "not a date at all") =
      some "not a date at all" :=
  ⟨(formatTimestamp_rule sampleDateEnv "10:00:00").2.2.1 (by decide) (by decide),
    (formatTimestamp_rule sampleDateEnv "10:00:00").2.2.2.2.2.1 (by decide),
    (formatTimestamp_rule sampleDateEnv "2024-01-02T03:04:05Z").2.2.2.2.2.2.1
      1704164645000 (by decide) (by decide),
    (formatTimestamp_rule sampleDateEnv "not a date at all").2.2.2.2.2.2.2.1
      (by decide) (by decide)⟩

namespace Server

/-! ## Ingestion endpoint -/

theorem length_assignIds (db : Db) (docs : List LogDoc) :
    ∀ next, (assignIds db next docs).length = docs.length := by
  induction docs with
  | nil => intro next; rfl
  | cons d ds ih => intro next; simp [assignIds, ih]

theorem map_doc_assignIds (db : Db) (docs : List LogDoc) :
    ∀ next, (assignIds db next docs).map (fun s => s.doc) = docs.map db.cast := by
  induction docs with
  | nil => intro next; rfl
  | cons d ds ih => intro next; simp [assignIds, ih]

theorem length_normalizeFrom (clock : Nat → String) (logArray : List Json) :
    ∀ i docs, normalizeFrom clock i logArray = some docs → docs.length = logArray.length := by
  induction logArray with
  | nil =>
    intro i docs h
    simp [normalizeFrom] at h
    simp [← h]
  | cons e rest ih =>
    intro i docs h
    unfold normalizeFrom at h
    cases hn : normalize (clock i) e with
    | none => simp [hn] at h
    | some doc =>
      cases hr : normalizeFrom clock (i + 1) rest with
      | none => simp [hn, hr] at h
      | some ds =>
        simp [hn, hr] at h
        simp [← h, ih (i + 1) ds hr]

theorem filterMap_emit (saved : List StoredLog) (tail : List Effect) :
    ((saved.map (Effect.emit "new_log")) ++ tail).filterMap
        (fun
          | .emit "new_log" payload => some payload
          | _ => none) =
      saved ++ tail.filterMap
        (fun
          | .emit "new_log" payload => some payload
          | _ => none) := by
  induction saved with
  | nil => rfl
  | cons a t ih => simp [List.filterMap_cons, ih]

theorem postLogs_saved (db : Db) (clock : Nat → String) (st : Store) (logArray : List Json)
    (docs : List LogDoc) (hn : normalizeFrom clock 0 logArray = some docs)
    (ha : db.accepts docs = true) :
    postLogs db clock st (some (.arr logArray)) =
      { trace :=
          .dbInsert docs (some (assignIds db st.nextId docs)) ::
            ((assignIds db st.nextId docs).map (Effect.emit "new_log") ++
              [.consoleLog ("💾 Saved " ++ toString (assignIds db st.nextId docs).length ++ " logs"),
               .respond 200 "Logs received and broadcasted"])
        store := { docs := st.docs ++ assignIds db st.nextId docs
                   nextId := st.nextId + docs.length } } := by
  simp [postLogs, hn, insertMany, ha]

theorem postLogs_refused (db : Db) (clock : Nat → String) (st : Store) (logArray : List Json)
    (docs : List LogDoc) (hn : normalizeFrom clock 0 logArray = some docs)
    (ha : db.accepts docs = false) :
    postLogs db clock st (some (.arr logArray)) =
      { trace := [.dbInsert docs none, .consoleError "❌ Error saving logs:",
                  .respond 500 "Failed to save logs"]
        store := st } := by
  simp [postLogs, hn, insertMany, ha]

theorem postLogs_thrown (db : Db) (clock : Nat → String) (st : Store) (logArray : List Json)
    (hn : normalizeFrom clock 0 logArray = none) :
    postLogs db clock st (some (.arr logArray)) =
      { trace := [.consoleError "❌ Error saving logs:", .respond 500 "Failed to save logs"]
        store := st } := by
  simp [postLogs, hn]

/-- C3: for every request body that is not an array (`undefined` included), the
handler does exactly one thing, sending status 400; the collection is
unchanged, no insert is handed to the store, and no `new_log` event is
emitted. -/
theorem post_rejects_non_array (db : Db) (clock : Nat → String) (st : Store)
    (body : Option Json) (h : ∀ items, body ≠ some (.arr items)) :
    (postLogs db clock st body).trace = [.respond 400 "❌ Request must be an array of logs"] ∧
    (postLogs db clock st body).response = some (400, "❌ Request must be an array of logs") ∧
    (postLogs db clock st body).store = st ∧
    (postLogs db clock st body).insertAttempts = [] ∧
    (postLogs db clock st body).emitted = [] := by
  have ht : postLogs db clock st body =
      { trace := [.respond 400 "❌ Request must be an array of logs"], store := st } := by
    cases body with
    | none => rfl
    | some j =>
      cases j with
      | arr items => exact absurd rfl (h items)
      | _ => rfl
  rw [ht]
  exact ⟨rfl, rfl, rfl, rfl, rfl⟩

/-- C3 at the body `{}`. -/
theorem post_rejects_non_array_witness :
    (postLogs sampleDb sampleClock emptyStore (some (.obj []))).response =
      some (400, "❌ Request must be an array of logs") ∧
    (postLogs sampleDb sampleClock emptyStore (some (.obj []))).store = emptyStore ∧
    (postLogs sampleDb sampleClock emptyStore (some (.obj []))).emitted = [] :=
  have h := post_rejects_non_array sampleDb sampleClock emptyStore (some (.obj []))
    (fun _ hc => Json.noConfusion (Option.some.inj hc))
  ⟨h.2.1, h.2.2.1, h.2.2.2.2⟩

theorem emitted_saved (docs : List LogDoc) (saved : List StoredLog) (line : String)
    (st : Store) :
    Outcome.emitted
      { trace :=
          .dbInsert docs (some saved) ::
            (saved.map (Effect.emit "new_log") ++
              [.consoleLog line, .respond 200 "Logs received and broadcasted"])
        store := st } = saved := by
  unfold Outcome.emitted
  rw [List.filterMap_cons]
  simp only []
  rw [filterMap_emit]
  simp

theorem response_saved (docs : List LogDoc) (saved : List StoredLog) (line : String)
    (st : Store) :
    Outcome.response
      { trace :=
          .dbInsert docs (some saved) ::
            (saved.map (Effect.emit "new_log") ++
              [.consoleLog line, .respond 200 "Logs received and broadcasted"])
        store := st } = some (200, "Logs received and broadcasted") := by
  unfold Outcome.response
  rw [List.findSome?_cons]
  simp only []
  induction saved with
  | nil => rfl
  | cons a t ih => simpa [List.findSome?_cons] using ih

theorem getElem?_assignIds (db : Db) (docs : List LogDoc) :
    ∀ (next j : Nat) (d : LogDoc), docs[j]? = some d →
      (assignIds db next docs)[j]? = some ({ _id := next + j, doc := db.cast d } : StoredLog) := by
  induction docs with
  | nil => intro next j d h; simp at h
  | cons d0 ds ih =>
    intro next j d h
    cases j with
    | zero =>
      simp only [List.getElem?_cons_zero, Option.some.injEq] at h
      subst h
      simp [assignIds]
    | succ k =>
      simp only [List.getElem?_cons_succ] at h
      have := ih (next + 1) k d h
      simp only [assignIds, List.getElem?_cons_succ, this]
      congr 2
      omega

theorem getElem?_normalizeFrom (clock : Nat → String) (logArray : List Json) :
    ∀ i docs, normalizeFrom clock i logArray = some docs →
      ∀ j entry, logArray[j]? = some entry →
        ∃ d, normalize (clock (i + j)) entry = some d ∧ docs[j]? = some d := by
  induction logArray with
  | nil => intro i docs _ j entry h; simp at h
  | cons e rest ih =>
    intro i docs h j entry hj
    unfold normalizeFrom at h
    cases hn : normalize (clock i) e with
    | none => simp [hn] at h
    | some doc =>
      cases hr : normalizeFrom clock (i + 1) rest with
      | none => simp [hn, hr] at h
      | some ds =>
        simp only [hn, hr, Option.some.injEq] at h
        subst h
        cases j with
        | zero =>
          simp only [List.getElem?_cons_zero, Option.some.injEq] at hj
          subst hj
          exact ⟨doc, by simpa using hn, by simp⟩
        | succ k =>
          simp only [List.getElem?_cons_succ] at hj
          obtain ⟨d, hd1, hd2⟩ := ih (i + 1) ds hr k entry hj
          refine ⟨d, ?_, by simpa using hd2⟩
          have : i + (k + 1) = i + 1 + k := by omega
          rw [this]
          exact hd1

theorem normalize_fields (hms : String) (entry : Json) (d : LogDoc)
    (h : normalize hms entry = some d) :
    d.log = entry.field "log" ∧
    d.anomaly_type = entry.field "anomaly_type" ∧
    d.severity = entry.field "severity" ∧
    d.confidence = entry.field "confidence" ∧
    d.anomaly_score = entry.field "anomaly_score" ∧
    d.processing_mode = entry.field "processing_mode" ∧
    d.timestamp =
      (match entry.field "timestamp" with
        | some t => if t.truthy then t else .str hms
        | none => .str hms) := by
  cases entry <;> simp only [normalize, Option.some.injEq] at h <;> first
    | exact absurd h (by simp)
    | (subst h; exact ⟨rfl, rfl, rfl, rfl, rfl, rfl, rfl⟩)

/-- C4: when the entries normalise to `docs` and the store accepts them, the
handler's effects are, in this order, the insert of the batch, one `new_log`
event per saved document in batch order, the console line and the 200 response;
so the events are the saved documents, as many as the input has entries, each
emitted after the insert and each present in the collection afterwards; and
event number `j` carries the document built from entry number `j` of the posted
array (its fields passed through, its timestamp or else the clock reading),
saved under the `j`-th identifier handed out.  For the empty array accepted by
the store the status is 200, nothing is emitted and the collection is
unchanged.  When the append does not succeed (an entry throws or the store
refuses the batch) nothing is emitted and the collection is unchanged. -/
theorem post_broadcasts_after_persist (db : Db) (clock : Nat → String) (st : Store)
    (logArray : List Json) :
    (∀ docs, normalizeFrom clock 0 logArray = some docs → db.accepts docs = true →
      (postLogs db clock st (some (.arr logArray))).trace =
        .dbInsert docs (some (assignIds db st.nextId docs)) ::
          ((assignIds db st.nextId docs).map (Effect.emit "new_log") ++
            [.consoleLog ("💾 Saved " ++ toString (assignIds db st.nextId docs).length ++ " logs"),
             .respond 200 "Logs received and broadcasted"]) ∧
      (postLogs db clock st (some (.arr logArray))).store.docs =
        st.docs ++ assignIds db st.nextId docs ∧
      (postLogs db clock st (some (.arr logArray))).emitted = assignIds db st.nextId docs ∧
      (postLogs db clock st (some (.arr logArray))).emitted.length = logArray.length ∧
      (postLogs db clock st (some (.arr logArray))).emitted.map (fun s => s.doc) =
        docs.map db.cast ∧
      (∀ pre payload post,
        (postLogs db clock st (some (.arr logArray))).trace =
            pre ++ Effect.emit "new_log" payload :: post →
          Effect.dbInsert docs (some (assignIds db st.nextId docs)) ∈ pre ∧
          payload ∈ (postLogs db clock st (some (.arr logArray))).store.docs) ∧
      (∀ j entry, logArray[j]? = some entry →
        ∃ d, normalize (clock j) entry = some d ∧
          (postLogs db clock st (some (.arr logArray))).emitted[j]? =
            some { _id := st.nextId + j, doc := db.cast d } ∧
          (postLogs db clock st (some (.arr logArray))).store.docs[st.docs.length + j]? =
            some { _id := st.nextId + j, doc := db.cast d } ∧
          d.log = entry.field "log" ∧
          d.anomaly_type = entry.field "anomaly_type" ∧
          d.severity = entry.field "severity" ∧
          d.confidence = entry.field "confidence" ∧
          d.anomaly_score = entry.field "anomaly_score" ∧
          d.processing_mode = entry.field "processing_mode" ∧
          d.timestamp =
            (match entry.field "timestamp" with
              | some t => if t.truthy then t else .str (clock j)
              | none => .str (clock j)))) ∧
    (logArray = [] → db.accepts [] = true →
      (postLogs db clock st (some (.arr logArray))).response =
        some (200, "Logs received and broadcasted") ∧
      (postLogs db clock st (some (.arr logArray))).emitted = [] ∧
      (postLogs db clock st (some (.arr logArray))).store.docs = st.docs) ∧
    (¬ appendSucceeds db clock logArray →
      (postLogs db clock st (some (.arr logArray))).emitted = [] ∧
      (postLogs db clock st (some (.arr logArray))).store = st) := by
  refine ⟨?_, ?_, ?_⟩
  · intro docs hn ha
    have hp := postLogs_saved db clock st logArray docs hn ha
    have hem : (postLogs db clock st (some (.arr logArray))).emitted =
        assignIds db st.nextId docs := by
      rw [hp]; exact emitted_saved _ _ _ _
    have hst : (postLogs db clock st (some (.arr logArray))).store.docs =
        st.docs ++ assignIds db st.nextId docs := by rw [hp]
    refine ⟨by rw [hp], hst, hem, ?_, ?_, ?_, ?_⟩
    · rw [hem, length_assignIds, length_normalizeFrom clock logArray 0 docs hn]
    · rw [hem, map_doc_assignIds]
    · intro pre payload post hsplit
      rw [hp] at hsplit
      simp only at hsplit
      cases pre with
      | nil => simp at hsplit
      | cons e pre1 =>
        rw [List.cons_append] at hsplit
        have hhead := (List.cons.inj hsplit).1
        have htail := (List.cons.inj hsplit).2
        refine ⟨by rw [hhead]; exact List.mem_cons_self _ _, ?_⟩
        have hmem : Effect.emit "new_log" payload ∈
            (assignIds db st.nextId docs).map (Effect.emit "new_log") ++
              [.consoleLog ("💾 Saved " ++
                  toString (assignIds db st.nextId docs).length ++ " logs"),
               .respond 200 "Logs received and broadcasted"] := by
          rw [htail]; simp
        rw [hp]
        simp only [List.mem_append, List.mem_map, List.mem_cons, List.mem_singleton,
          List.not_mem_nil, or_false] at hmem
        rcases hmem with ⟨x, hx, hxe⟩ | h | h
        · have : x = payload := by injection hxe
          subst this
          exact List.mem_append_right _ hx
        · cases h
        · cases h
    · intro j entry hj
      obtain ⟨d, hd1, hd2⟩ := getElem?_normalizeFrom clock logArray 0 docs hn j entry hj
      rw [Nat.zero_add] at hd1
      have hsaved := getElem?_assignIds db docs st.nextId j d hd2
      refine ⟨d, hd1, by rw [hem]; exact hsaved, ?_, normalize_fields _ _ _ hd1⟩
      rw [hst, List.getElem?_append_right (by omega)]
      simpa using hsaved
  · intro hnil ha
    subst hnil
    have hp := postLogs_saved db clock st [] [] rfl ha
    rw [hp]
    refine ⟨rfl, rfl, ?_⟩
    simp [assignIds]
  · intro hfail
    cases hn : normalizeFrom clock 0 logArray with
    | none =>
      rw [postLogs_thrown db clock st logArray hn]
      exact ⟨rfl, rfl⟩
    | some docs =>
      cases ha : db.accepts docs with
      | true => exact absurd ⟨docs, hn, ha⟩ hfail
      | false =>
        rw [postLogs_refused db clock st logArray docs hn ha]
        exact ⟨rfl, rfl⟩

/-- C4 at a batch of two different entries posted to a collection that holds
one document: two events, in the order of the batch, under identifiers 7 and 8,
the second carrying the clock reading as its timestamp; and at the empty
batch. -/
theorem post_broadcasts_after_persist_witness :
    (postLogs sampleDb sampleClock sampleStore
        (some (.arr [sampleEntry, sampleEntry2]))).emitted.map
      (fun s => (s._id,
        match s.doc.anomaly_type with
        | some (.str tag) => tag
        | _ => "")) = [(7, "system_critical"), (8, "network_error")] ∧
    (∃ d, normalize (sampleClock 1) sampleEntry2 = some d ∧
      (postLogs sampleDb sampleClock sampleStore
        (some (.arr [sampleEntry, sampleEntry2]))).emitted[1]? =
          some { _id := sampleStore.nextId + 1, doc := sampleDb.cast d } ∧
      (postLogs sampleDb sampleClock sampleStore
        (some (.arr [sampleEntry, sampleEntry2]))).store.docs[sampleStore.docs.length + 1]? =
          some { _id := sampleStore.nextId + 1, doc := sampleDb.cast d } ∧
      d.log = sampleEntry2.field "log" ∧
      d.anomaly_type = sampleEntry2.field "anomaly_type" ∧
      d.severity = sampleEntry2.field "severity" ∧
      d.confidence = sampleEntry2.field "confidence" ∧
      d.anomaly_score = sampleEntry2.field "anomaly_score" ∧
      d.processing_mode = sampleEntry2.field "processing_mode" ∧
      d.timestamp =
        (match sampleEntry2.field "timestamp" with
          | some t => if t.truthy then t else .str (sampleClock 1)
          | none => .str (sampleClock 1))) ∧
    (postLogs sampleDb sampleClock emptyStore (some (.arr []))).emitted = [] :=
  ⟨by
      have h := ((post_broadcasts_after_persist sampleDb sampleClock sampleStore
        [sampleEntry, sampleEntry2]).1 _ rfl rfl).2.2.1
      rw [h]; rfl,
    ((post_broadcasts_after_persist sampleDb sampleClock sampleStore
        [sampleEntry, sampleEntry2]).1 _ rfl rfl).2.2.2.2.2.2 1 sampleEntry2 rfl,
    ((post_broadcasts_after_persist sampleDb sampleClock emptyStore []).2.1 rfl rfl).2.1⟩

/-- C5 as stated fails: the response to a batch of one entry and the response to
a batch of two are the same status and text, so no reading of the response
gives the stored count. -/
theorem post_response_omits_count :
    (postLogs sampleDb sampleClock emptyStore (some (.arr [sampleEntry]))).response =
      some (200, "Logs received and broadcasted") ∧
    (postLogs sampleDb sampleClock emptyStore
        (some (.arr [sampleEntry, sampleEntry]))).response =
      some (200, "Logs received and broadcasted") ∧
    ¬ ∃ count : Option (Nat × String) → Nat,
      ∀ logArray, logArray ≠ [] → appendSucceeds sampleDb sampleClock logArray →
        count (postLogs sampleDb sampleClock emptyStore (some (.arr logArray))).response =
          logArray.length := by
  have h1 : (postLogs sampleDb sampleClock emptyStore (some (.arr [sampleEntry]))).response =
      some (200, "Logs received and broadcasted") := by decide
  have h2 : (postLogs sampleDb sampleClock emptyStore
      (some (.arr [sampleEntry, sampleEntry]))).response =
      some (200, "Logs received and broadcasted") := by decide
  refine ⟨h1, h2, ?_⟩
  rintro ⟨count, hc⟩
  have e1 := hc [sampleEntry] (by simp) ⟨_, rfl, rfl⟩
  have e2 := hc [sampleEntry, sampleEntry] (by simp) ⟨_, rfl, rfl⟩
  rw [h1] at e1
  rw [h2] at e2
  rw [e1] at e2
  simp at e2

/-- C5, amended: for every non-empty array body whose store append succeeds,
the response is status 200 with the fixed text `Logs received and broadcasted`;
the number of documents saved equals the length of the input array, the
collection grows by that number, and that number is written to the server
console in the line `Saved n logs`. -/
theorem post_success_response (db : Db) (clock : Nat → String) (st : Store)
    (logArray : List Json) (_hne : logArray ≠ [])
    (hok : appendSucceeds db clock logArray) :
    (postLogs db clock st (some (.arr logArray))).response =
      some (200, "Logs received and broadcasted") ∧
    (postLogs db clock st (some (.arr logArray))).emitted.length = logArray.length ∧
    (postLogs db clock st (some (.arr logArray))).store.docs.length =
      st.docs.length + logArray.length ∧
    Effect.consoleLog ("💾 Saved " ++ toString logArray.length ++ " logs") ∈
      (postLogs db clock st (some (.arr logArray))).trace := by
  obtain ⟨docs, hn, ha⟩ := hok
  have hp := postLogs_saved db clock st logArray docs hn ha
  have hlen : (assignIds db st.nextId docs).length = logArray.length := by
    rw [length_assignIds, length_normalizeFrom clock logArray 0 docs hn]
  rw [hp]
  refine ⟨response_saved _ _ _ _, ?_, ?_, ?_⟩
  · rw [emitted_saved, hlen]
  · simp [hlen]
  · rw [hlen]; simp

/-- C5, amended, at a batch of two entries. -/
theorem post_success_response_witness :
    (postLogs sampleDb sampleClock emptyStore
        (some (.arr [sampleEntry, sampleEntry]))).store.docs.length = 0 + 2 ∧
    Effect.consoleLog ("💾 Saved " ++ toString 2 ++ " logs") ∈
      (postLogs sampleDb sampleClock emptyStore
        (some (.arr [sampleEntry, sampleEntry]))).trace :=
  have h := post_success_response sampleDb sampleClock emptyStore
    [sampleEntry, sampleEntry] (by simp) ⟨_, rfl, rfl⟩
  ⟨h.2.2.1, h.2.2.2⟩

end Server

namespace Dbl

/-! ## Number arithmetic: accuracy of rounding -/

theorem log2Fuel_bounds (fuel : Nat) :
    ∀ n, 0 < n → n ≤ fuel →
      2 ^ log2Fuel fuel n ≤ n ∧ n < 2 ^ (log2Fuel fuel n + 1) := by
  induction fuel with
  | zero => intro n h0 h1; omega
  | succ f ih =>
    intro n h0 h1
    unfold log2Fuel
    by_cases h2 : n < 2
    · have : n = 1 := by omega
      subst this
      simp
    · rw [if_neg h2]
      have hpos : 0 < n / 2 := Nat.div_pos (by omega) (by decide)
      have hle : n / 2 ≤ f := by omega
      obtain ⟨hl, hu⟩ := ih (n / 2) hpos hle
      constructor
      · rw [pow_succ]
        have := (Nat.le_div_iff_mul_le (by decide : 0 < 2)).mp hl
        exact this
      · rw [pow_succ]
        exact (Nat.div_lt_iff_lt_mul (by decide : 0 < 2)).mp hu

theorem log2_bounds (n : Nat) (h : 0 < n) : 2 ^ log2 n ≤ n ∧ n < 2 ^ (log2 n + 1) :=
  log2Fuel_bounds n n h (le_refl n)

theorem roundHalfEven_bounds (a b : Nat) (hb : 0 < b) :
    2 * (roundHalfEven a b * b) ≤ 2 * a + b ∧ 2 * a ≤ 2 * (roundHalfEven a b * b) + b := by
  have hdm : b * (a / b) + a % b = a := Nat.div_add_mod a b
  have hr : a % b < b := Nat.mod_lt a hb
  have hcomm : a / b * b = b * (a / b) := Nat.mul_comm _ _
  have hsucc : (a / b + 1) * b = b * (a / b) + b := by rw [Nat.add_mul, hcomm, Nat.one_mul]
  unfold roundHalfEven
  simp only
  generalize hn : b * (a / b) = t at hdm hcomm hsucc
  split
  · rw [hcomm]; omega
  · split
    · rw [hsucc]; omega
    · split
      · rw [hcomm]; omega
      · rw [hsucc]; omega

theorem scale_snd_pos (p q : Nat) (s : Int) (hq : 0 < q) : 0 < (scale p q s).2 := by
  unfold scale
  split
  · exact hq
  · exact Nat.mul_pos hq (Nat.pow_pos (by decide))

theorem scale_value (p q : Nat) (s : Int) :
    ((scale p q s).1 : ℚ) / ((scale p q s).2 : ℚ) = (p : ℚ) / (q : ℚ) * (2 : ℚ) ^ s := by
  unfold scale
  split
  · rename_i h
    obtain ⟨n, rfl⟩ := Int.eq_ofNat_of_zero_le h
    simp only [Int.toNat_ofNat, Nat.cast_mul, Nat.cast_pow, Nat.cast_ofNat, zpow_natCast]
    ring
  · rename_i h
    have hneg : 0 ≤ -s := by omega
    obtain ⟨n, hn⟩ := Int.eq_ofNat_of_zero_le hneg
    have hs : s = -(n : Int) := by omega
    subst hs
    simp only [neg_neg, Int.toNat_ofNat, Nat.cast_mul, Nat.cast_pow, Nat.cast_ofNat, zpow_neg,
      zpow_natCast]
    rw [div_mul_eq_div_div, div_eq_mul_inv ((p : ℚ) / (q : ℚ))]

theorem roundHalfEven_near (a b : Nat) (hb : 0 < b) :
    (roundHalfEven a b : ℚ) - (a : ℚ) / b ≤ 1 / 2 ∧
    (a : ℚ) / b - (roundHalfEven a b : ℚ) ≤ 1 / 2 := by
  obtain ⟨h1, h2⟩ := roundHalfEven_bounds a b hb
  have hbq : (0 : ℚ) < b := by exact_mod_cast hb
  have h1q : 2 * ((roundHalfEven a b : ℚ) * b) ≤ 2 * a + b := by exact_mod_cast h1
  have h2q : 2 * (a : ℚ) ≤ 2 * ((roundHalfEven a b : ℚ) * b) + b := by exact_mod_cast h2
  constructor
  · rw [sub_le_iff_le_add, ← sub_le_iff_le_add', le_div_iff₀ hbq]
    linarith
  · rw [sub_le_iff_le_add, div_le_iff₀ hbq]
    linarith

theorem round_scaled (p q : Nat) (s : Int) (hq : 0 < q)
    (hy : (2 : ℚ) ^ 52 ≤ (p : ℚ) / q * (2 : ℚ) ^ s) :
    0 < (scale (roundHalfEven (scale p q s).1 (scale p q s).2) 1 (-s)).2 ∧
    |((scale (roundHalfEven (scale p q s).1 (scale p q s).2) 1 (-s)).1 : ℚ) /
        ((scale (roundHalfEven (scale p q s).1 (scale p q s).2) 1 (-s)).2 : ℚ) -
      (p : ℚ) / q| ≤ (p : ℚ) / q / 2 ^ 53 := by
  have hb : 0 < (scale p q s).2 := scale_snd_pos p q s hq
  obtain ⟨hm1, hm2⟩ := roundHalfEven_near (scale p q s).1 (scale p q s).2 hb
  rw [scale_value] at hm1 hm2
  refine ⟨scale_snd_pos _ 1 _ (by decide), ?_⟩
  rw [scale_value]
  have hz : (0 : ℚ) < (2 : ℚ) ^ (-s) := zpow_pos (by norm_num) _
  have hzz : (2 : ℚ) ^ s * (2 : ℚ) ^ (-s) = 1 := by
    rw [← zpow_add₀ (by norm_num : (2 : ℚ) ≠ 0)]
    simp
  generalize (roundHalfEven (scale p q s).1 (scale p q s).2 : ℚ) = m at hm1 hm2 ⊢
  generalize hyd : (p : ℚ) / q * (2 : ℚ) ^ s = y at hm1 hm2 hy
  have hpq : (p : ℚ) / q = y * (2 : ℚ) ^ (-s) := by
    rw [← hyd, mul_assoc, hzz, mul_one]
  rw [hpq]
  generalize (2 : ℚ) ^ (-s) = z at hz ⊢
  have e1 : 0 ≤ z * (y - 2 ^ 52) := mul_nonneg hz.le (by linarith)
  have e2 : 0 ≤ z * (1 / 2 - (m - y)) := mul_nonneg hz.le (by linarith)
  have e3 : 0 ≤ z * (1 / 2 - (y - m)) := mul_nonneg hz.le (by linarith)
  have hcast : ((1 : ℕ) : ℚ) = 1 := Nat.cast_one
  have hw : z / 2 ≤ y * z / 2 ^ 53 := by
    rw [div_le_div_iff₀ (by norm_num) (by norm_num)]
    norm_num at e1 ⊢
    nlinarith
  rw [hcast, div_one, abs_le]
  constructor
  · linarith
  · linarith

theorem scaled_lower (p q : Nat) (hp : 0 < p) (hq : 0 < q) :
    (2 : ℚ) ^ 51 <
      (p : ℚ) / q * (2 : ℚ) ^ ((52 : Int) - ((log2 p : Int) - (log2 q : Int))) := by
  obtain ⟨hpl, _⟩ := log2_bounds p hp
  obtain ⟨_, hqu⟩ := log2_bounds q hq
  have hA : ((2 : ℚ) ^ log2 p) ≤ p := by exact_mod_cast hpl
  have hB : (q : ℚ) < (2 : ℚ) ^ (log2 q + 1) := by exact_mod_cast hqu
  rw [pow_succ] at hB
  have hApos : (0 : ℚ) < (2 : ℚ) ^ log2 p := pow_pos (by norm_num) _
  have hBpos : (0 : ℚ) < (2 : ℚ) ^ log2 q := pow_pos (by norm_num) _
  have hqpos : (0 : ℚ) < q := by exact_mod_cast hq
  have hz : (2 : ℚ) ^ ((52 : Int) - ((log2 p : Int) - (log2 q : Int))) =
      2 ^ 52 * (2 : ℚ) ^ log2 q / (2 : ℚ) ^ log2 p := by
    rw [zpow_sub₀ (by norm_num : (2 : ℚ) ≠ 0), zpow_sub₀ (by norm_num : (2 : ℚ) ≠ 0),
      zpow_natCast, zpow_natCast]
    have : (2 : ℚ) ^ (52 : Int) = 2 ^ 52 := by norm_num
    rw [this]
    field_simp
  rw [hz]
  generalize (2 : ℚ) ^ log2 p = A at hA hApos
  generalize (2 : ℚ) ^ log2 q = B at hB hBpos
  have hkey : (q : ℚ) * A < 2 * ((p : ℚ) * B) := by nlinarith
  have heq : (p : ℚ) / q * (2 ^ 52 * B / A) = 2 ^ 52 * ((p : ℚ) * B) / (q * A) := by
    field_simp
    ring
  rw [heq, lt_div_iff₀ (mul_pos hqpos hApos)]
  norm_num
  nlinarith

theorem nearest_bounds (p q : Nat) (hq : 0 < q) :
    0 < (nearest p q).2 ∧
    |((nearest p q).1 : ℚ) / ((nearest p q).2 : ℚ) - (p : ℚ) / q| ≤ (p : ℚ) / q / 2 ^ 53 := by
  by_cases hp : p = 0
  · subst hp
    simp [nearest]
  · have hp0 : 0 < p := Nat.pos_of_ne_zero hp
    have hlow := scaled_lower p q hp0 hq
    by_cases hc : 2 ^ 52 * (scale p q (52 - ((log2 p : Int) - (log2 q : Int)))).2 ≤
        (scale p q (52 - ((log2 p : Int) - (log2 q : Int)))).1
    · have hn : nearest p q =
          scale (roundHalfEven (scale p q (52 - ((log2 p : Int) - (log2 q : Int)))).1
            (scale p q (52 - ((log2 p : Int) - (log2 q : Int)))).2) 1
            (-(52 - ((log2 p : Int) - (log2 q : Int)))) := by
        simp only [nearest, if_neg hp, if_pos hc]
      rw [hn]
      apply round_scaled p q _ hq
      rw [← scale_value]
      have hb : (0 : ℚ) < ((scale p q (52 - ((log2 p : Int) - (log2 q : Int)))).2 : ℚ) := by
        exact_mod_cast scale_snd_pos p q _ hq
      rw [le_div_iff₀ hb]
      exact_mod_cast hc
    · have hn : nearest p q =
          scale (roundHalfEven (scale p q (52 - ((log2 p : Int) - (log2 q : Int)) + 1)).1
            (scale p q (52 - ((log2 p : Int) - (log2 q : Int)) + 1)).2) 1
            (-(52 - ((log2 p : Int) - (log2 q : Int)) + 1)) := by
        simp only [nearest, if_neg hp, if_neg hc]
      rw [hn]
      apply round_scaled p q _ hq
      rw [zpow_add_one₀ (by norm_num : (2 : ℚ) ≠ 0)]
      have : (2 : ℚ) ^ 52 = 2 ^ 51 * 2 := by norm_num
      rw [this, ← mul_assoc]
      exact mul_le_mul_of_nonneg_right hlow.le (by norm_num)

end Dbl

namespace HomePage

/-! ## Home dashboard: percentages -/

/-- The number of tenths shown for `count` out of `total`: the quotient and the
product are rounded to binary64, and the result to the nearest tenth. -/
theorem percent_natCast (c : Nat) (s : State) :
    percent (c : Int) s =
      toString ((20 * (Dbl.nearest ((Dbl.nearest c (denominator s)).1 * 100)
          (Dbl.nearest c (denominator s)).2).1 +
          (Dbl.nearest ((Dbl.nearest c (denominator s)).1 * 100)
            (Dbl.nearest c (denominator s)).2).2) /
        (2 * (Dbl.nearest ((Dbl.nearest c (denominator s)).1 * 100)
            (Dbl.nearest c (denominator s)).2).2) / 10) ++ "." ++
      toString ((20 * (Dbl.nearest ((Dbl.nearest c (denominator s)).1 * 100)
          (Dbl.nearest c (denominator s)).2).1 +
          (Dbl.nearest ((Dbl.nearest c (denominator s)).1 * 100)
            (Dbl.nearest c (denominator s)).2).2) /
        (2 * (Dbl.nearest ((Dbl.nearest c (denominator s)).1 * 100)
            (Dbl.nearest c (denominator s)).2).2) % 10) := by
  have hd : denominator s ≠ 0 := by
    unfold denominator
    split <;> omega
  have hd' : ((denominator s : Nat) : Int) ≠ 0 := by exact_mod_cast hd
  have h1 : ¬ ((c : Int) < 0) := by omega
  have h2 : ¬ (((denominator s : Nat) : Int) < 0) := by omega
  have h3 : ¬ ((100 : Int) < 0) := by decide
  have h4 : ∀ n : Nat, ¬ ((n : Int) < 0) := fun n => by omega
  simp [percent, Dbl.ofInt, Dbl.div, Dbl.mul, Dbl.toFixed1, hd', h1, h2, h3, h4]

theorem tenths_near (a b : Nat) (hb : 0 < b) :
    (((20 * a + b) / (2 * b) : Nat) : ℚ) - 10 * ((a : ℚ) / b) ≤ 1 / 2 ∧
    10 * ((a : ℚ) / b) - (((20 * a + b) / (2 * b) : Nat) : ℚ) ≤ 1 / 2 := by
  have hbq : (0 : ℚ) < b := by exact_mod_cast hb
  have h2b : 0 < 2 * b := by omega
  have hlo : 2 * b * ((20 * a + b) / (2 * b)) ≤ 20 * a + b := Nat.mul_div_le _ _
  have hhi : 20 * a + b < 2 * b * ((20 * a + b) / (2 * b) + 1) := by
    have := Nat.lt_mul_div_succ (20 * a + b) h2b
    simpa [Nat.mul_add] using this
  generalize (20 * a + b) / (2 * b) = t at hlo hhi
  have hloq : 2 * (b : ℚ) * t ≤ 20 * a + b := by exact_mod_cast hlo
  have hhiq : 20 * (a : ℚ) + b < 2 * b * (t + 1) := by exact_mod_cast hhi
  have hab : (a : ℚ) / b * b = a := div_mul_cancel₀ _ hbq.ne'
  generalize (a : ℚ) / b = x at hab
  constructor
  · nlinarith
  · nlinarith

theorem percent_accurate (c : Nat) (s : State) (hc : c ≤ denominator s) :
    ∃ t : Nat,
      percent (c : Int) s = toString (t / 10) ++ "." ++ toString (t % 10) ∧
      |(t : ℚ) / 10 - 100 * (c : ℚ) / (denominator s : ℚ)| ≤ 1 / 20 + 1 / 2 ^ 45 := by
  have hd : 0 < denominator s := by
    unfold denominator
    split <;> omega
  refine ⟨_, percent_natCast c s, ?_⟩
  obtain ⟨hp1, hb1⟩ := Dbl.nearest_bounds c (denominator s) hd
  obtain ⟨hp2, hb2⟩ := Dbl.nearest_bounds ((Dbl.nearest c (denominator s)).1 * 100)
    (Dbl.nearest c (denominator s)).2 hp1
  obtain ⟨ht1, ht2⟩ := tenths_near
    (Dbl.nearest ((Dbl.nearest c (denominator s)).1 * 100) (Dbl.nearest c (denominator s)).2).1
    (Dbl.nearest ((Dbl.nearest c (denominator s)).1 * 100) (Dbl.nearest c (denominator s)).2).2
    hp2
  have hdq : (0 : ℚ) < (denominator s : ℚ) := by exact_mod_cast hd
  have hr0 : (0 : ℚ) ≤ (c : ℚ) / (denominator s : ℚ) := by positivity
  have hr1 : (c : ℚ) / (denominator s : ℚ) ≤ 1 := by
    rw [div_le_one hdq]
    exact_mod_cast hc
  have hcast : (((Dbl.nearest c (denominator s)).1 * 100 : Nat) : ℚ) /
      ((Dbl.nearest c (denominator s)).2 : ℚ) =
      100 * (((Dbl.nearest c (denominator s)).1 : ℚ) / ((Dbl.nearest c (denominator s)).2 : ℚ)) := by
    push_cast
    ring
  rw [hcast] at hb2
  have hgoal : 100 * (c : ℚ) / (denominator s : ℚ) = 100 * ((c : ℚ) / (denominator s : ℚ)) := by
    ring
  rw [hgoal]
  generalize ((Dbl.nearest ((Dbl.nearest c (denominator s)).1 * 100)
      (Dbl.nearest c (denominator s)).2).1 : ℚ) /
    ((Dbl.nearest ((Dbl.nearest c (denominator s)).1 * 100)
      (Dbl.nearest c (denominator s)).2).2 : ℚ) = x at hb2 ht1 ht2
  generalize (((20 * (Dbl.nearest ((Dbl.nearest c (denominator s)).1 * 100)
      (Dbl.nearest c (denominator s)).2).1 +
      (Dbl.nearest ((Dbl.nearest c (denominator s)).1 * 100)
        (Dbl.nearest c (denominator s)).2).2) /
    (2 * (Dbl.nearest ((Dbl.nearest c (denominator s)).1 * 100)
        (Dbl.nearest c (denominator s)).2).2) : Nat) : ℚ) = t at ht1 ht2 ⊢
  generalize ((Dbl.nearest c (denominator s)).1 : ℚ) /
    ((Dbl.nearest c (denominator s)).2 : ℚ) = x1 at hb1 hb2
  generalize (c : ℚ) / (denominator s : ℚ) = r at hb1 hr0 hr1 ⊢
  rw [abs_le] at hb1 hb2 ⊢
  obtain ⟨hb1l, hb1u⟩ := hb1
  obtain ⟨hb2l, hb2u⟩ := hb2
  norm_num at hb1l hb1u hb2l hb2u ⊢
  constructor <;> linarith

theorem scaled_finite (c : Nat) (s : State) :
    ∃ num den : Nat, 0 < den ∧
      Dbl.mul (Dbl.div (Dbl.ofInt (c : Int)) (Dbl.ofInt (denominator s))) (Dbl.ofInt 100) =
        .finite (num : Int) den := by
  have hd : 0 < denominator s := by
    unfold denominator
    split <;> omega
  have hd' : ((denominator s : Nat) : Int) ≠ 0 := by exact_mod_cast hd.ne'
  have h1 : ¬ ((c : Int) < 0) := by omega
  have h2 : ¬ (((denominator s : Nat) : Int) < 0) := by omega
  have h3 : ¬ ((100 : Int) < 0) := by decide
  have h4 : ∀ n : Nat, ¬ ((n : Int) < 0) := fun n => by omega
  obtain ⟨hp1, _⟩ := Dbl.nearest_bounds c (denominator s) hd
  obtain ⟨hp2, _⟩ := Dbl.nearest_bounds ((Dbl.nearest c (denominator s)).1 * 100)
    (Dbl.nearest c (denominator s)).2 hp1
  refine ⟨(Dbl.nearest ((Dbl.nearest c (denominator s)).1 * 100)
      (Dbl.nearest c (denominator s)).2).1,
    (Dbl.nearest ((Dbl.nearest c (denominator s)).1 * 100)
      (Dbl.nearest c (denominator s)).2).2, hp2, ?_⟩
  simp [Dbl.ofInt, Dbl.div, Dbl.mul, hd', h1, h2, h3, h4]

theorem counts_run (evs : List Event) :
    ∃ a b : Nat, threatCount (run evs) = (a : Int) ∧ nonThreatCount (run evs) = (b : Int) ∧
      a + b = (run evs).logs.length := by
  have hT := run_threats evs
  have hlen := length_eq_countP_add isThreat (run evs).logs
  refine ⟨(run evs).logs.countP isThreat, (run evs).logs.countP (fun l => !isThreat l), ?_, ?_,
    hlen.symm⟩
  · simp [threatCount, hT, List.countP_eq_length_filter]
  · have hc : threatCount (run evs) = ((run evs).logs.countP isThreat : Nat) := by
      simp [threatCount, hT, List.countP_eq_length_filter]
    unfold nonThreatCount
    rw [hc]
    omega

/-- The binary64 product for three out of two thousand lies just below 0.15 and
renders as `0.1`. -/
theorem percent_below_tie :
    Dbl.toFixed1 (Dbl.mul (Dbl.div (Dbl.ofInt 3) (Dbl.ofInt 2000)) (Dbl.ofInt 100)) = "0.1" := by
  decide

/-- C7: in every state the dashboard reaches, the denominator of both
percentages is `max total 1`, never zero, so that each quotient
`count / denominator * 100` is a finite number (neither `NaN` nor an infinity);
each label carries that number rendered by `toFixed(1)` as an integer part, a
point and one digit, and the number shown is within `0.05 + 2^-45` of the exact
percentage `100 * count / denominator`; when `total` is 0 both labels read
`0.0%`, whereas the quotient `count / total` without the clamp would render as
`NaN`. -/
theorem percent_safe_division (evs : List Event) :
    denominator (run evs) = max (run evs).logs.length 1 ∧
    denominator (run evs) ≠ 0 ∧
    pieLabels (run evs) =
      ["Threats (" ++ Dbl.toFixed1 (Dbl.mul (Dbl.div (Dbl.ofInt (threatCount (run evs)))
          (Dbl.ofInt (denominator (run evs)))) (Dbl.ofInt 100)) ++ "%)",
       "Non-Threats (" ++ Dbl.toFixed1 (Dbl.mul (Dbl.div (Dbl.ofInt (nonThreatCount (run evs)))
          (Dbl.ofInt (denominator (run evs)))) (Dbl.ofInt 100)) ++ "%)"] ∧
    (∃ num den : Nat, 0 < den ∧
      Dbl.mul (Dbl.div (Dbl.ofInt (threatCount (run evs)))
        (Dbl.ofInt (denominator (run evs)))) (Dbl.ofInt 100) = .finite (num : Int) den) ∧
    (∃ num den : Nat, 0 < den ∧
      Dbl.mul (Dbl.div (Dbl.ofInt (nonThreatCount (run evs)))
        (Dbl.ofInt (denominator (run evs)))) (Dbl.ofInt 100) = .finite (num : Int) den) ∧
    (∃ t : Nat,
      percent (threatCount (run evs)) (run evs) =
        toString (t / 10) ++ "." ++ toString (t % 10) ∧
      |(t : ℚ) / 10 - 100 * (threatCount (run evs) : ℚ) / (denominator (run evs) : ℚ)| ≤
        1 / 20 + 1 / 2 ^ 45) ∧
    (∃ t : Nat,
      percent (nonThreatCount (run evs)) (run evs) =
        toString (t / 10) ++ "." ++ toString (t % 10) ∧
      |(t : ℚ) / 10 - 100 * (nonThreatCount (run evs) : ℚ) / (denominator (run evs) : ℚ)| ≤
        1 / 20 + 1 / 2 ^ 45) ∧
    ((run evs).logs.length = 0 →
      percent (threatCount (run evs)) (run evs) = "0.0" ∧
      percent (nonThreatCount (run evs)) (run evs) = "0.0" ∧
      pieLabels (run evs) = ["Threats (0.0%)", "Non-Threats (0.0%)"] ∧
      Dbl.toFixed1 (Dbl.mul (Dbl.div (Dbl.ofInt (threatCount (run evs)))
        (Dbl.ofInt (run evs).logs.length)) (Dbl.ofInt 100)) = "NaN") := by
  obtain ⟨a, b, ha, hb, hab⟩ := counts_run evs
  have hden : denominator (run evs) = max (run evs).logs.length 1 := by
    unfold denominator
    split <;> omega
  have hale : a ≤ denominator (run evs) := by omega
  have hble : b ≤ denominator (run evs) := by omega
  refine ⟨hden, by omega, rfl, ?_, ?_, ?_, ?_, ?_⟩
  · rw [ha]; exact scaled_finite a (run evs)
  · rw [hb]; exact scaled_finite b (run evs)
  · rw [ha]
    obtain ⟨t, h1, h2⟩ := percent_accurate a (run evs) hale
    exact ⟨t, h1, by simpa using h2⟩
  · rw [hb]
    obtain ⟨t, h1, h2⟩ := percent_accurate b (run evs) hble
    exact ⟨t, h1, by simpa using h2⟩
  · intro h0
    have ha0 : a = 0 := by omega
    have hb0 : b = 0 := by omega
    have hd : denominator (run evs) = 1 := by simp [denominator, h0]
    have hc : threatCount (run evs) = 0 := by rw [ha, ha0]; rfl
    have hn : nonThreatCount (run evs) = 0 := by rw [hb, hb0]; rfl
    have hp : Dbl.toFixed1 (Dbl.mul (Dbl.div (Dbl.ofInt 0) (Dbl.ofInt ((1 : Nat) : Int)))
        (Dbl.ofInt 100)) = "0.0" := by decide
    have hp1 : percent (threatCount (run evs)) (run evs) = "0.0" := by
      unfold percent; rw [hc, hd]; exact hp
    have hp2 : percent (nonThreatCount (run evs)) (run evs) = "0.0" := by
      unfold percent; rw [hn, hd]; exact hp
    refine ⟨hp1, hp2, ?_, ?_⟩
    · unfold pieLabels
      rw [hp1, hp2]
      decide
    · rw [hc, h0]
      decide

/-- C7 before any record has arrived, and with two threats among three
records. -/
theorem percent_safe_division_witness :
    pieLabels (run []) = ["Threats (0.0%)", "Non-Threats (0.0%)"] ∧
    Dbl.toFixed1 (Dbl.mul (Dbl.div (Dbl.ofInt (threatCount (run [])))
      (Dbl.ofInt (run []).logs.length)) (Dbl.ofInt 100)) = "NaN" ∧
    pieLabels (run [.snapshot (sampleLogs.take 3)]) =
      ["Threats (66.7%)", "Non-Threats (33.3%)"] :=
  ⟨((percent_safe_division []).2.2.2.2.2.2.2 (by decide)).2.2.1,
    ((percent_safe_division []).2.2.2.2.2.2.2 (by decide)).2.2.2,
    (percent_safe_division [.snapshot (sampleLogs.take 3)]).2.2.1.trans (by decide)⟩

end HomePage

end Siem
